import Mathlib

/-!
Verification development for the tf-alae repository.

The repository trains an Adversarial Latent Autoencoder (models/alae.py) with a
progressively grown style-based generator (models/stylealae/generator.py).  We
shallowly embed the orchestrator and the generator over exact rationals.  The
tensor runtime's primitives (sub-model forward passes, automatic
differentiation, the Adam optimizer, the random-normal sampler and the softplus
kernel) are external collaborators of the code under study; they appear here as
abstract fields of a "Runtime" structure, while every piece of control flow,
loss arithmetic, variable-group plumbing and shape bookkeeping that the python
source itself performs is translated directly.
-/

namespace TfAlae

/-- Flat tensor of rational scalars. -/
abbrev Tensor := List ℚ

/-- Batch of per-sample tensors, i.e. a tensor whose leading axis is the batch. -/
abbrev Batch := List (List ℚ)

/-- Arithmetic mean of a list of scalars; translation of tf.reduce_mean on a
flat tensor (empty input yields 0, matching field division by zero). -/
def mean (l : List ℚ) : ℚ := l.sum / l.length

/-- Mean over every element of a batched tensor; translation of tf.reduce_mean
applied to a higher-rank tensor, which averages over all entries. -/
def meanAll (b : Batch) : ℚ := mean b.flatten

/-- Trainable parameters of the four sub-models built in ALAE.prepare, plus a
field for variables outside all of them (non-trainable state); each sub-model's
trainable_variables list is flattened to one vector of scalars. -/
structure Params where
  mapP : Tensor
  genP : Tensor
  encP : Tensor
  discP : Tensor
  otherP : Tensor

/-- Black-box tensor-runtime services used by models/alae.py, abstracted per
the spec's external-collaborator boundary: the four sub-model forward passes
(subclass responsibility), softplus, the gradients delivered by
tf.GradientTape, the optimizer's apply_gradients (state type O holds its moment
estimates), and the process-wide normal sampler (indexed by a draw counter,
batch size, dimension, mean and standard deviation). -/
structure Runtime (O : Type) where
  softplus : ℚ → ℚ
  mapF : Tensor → Batch → Batch
  genF : Tensor → Batch → Batch
  encF : Tensor → Batch → Batch
  discF : Tensor → Batch → Batch
  gradRealED : Batch → Params → List Tensor
  gradDisc : Batch → Batch → Params → Tensor
  gradGen : Batch → Batch → Params → Tensor
  gradLatent : Batch → Batch → Params → Tensor
  optApply : O → Tensor → Tensor → O × Tensor
  normal : ℕ → ℕ → ℕ → ℚ → ℚ → Batch

/-- Hyper-parameters stored by ALAE.prepare that the training step reads
(learning_rate, beta1, beta2 are consumed by the optimizer black box). -/
structure Config where
  zDim : ℕ
  gamma : ℚ
  discGclip : Option ℚ

/-- Composite pipeline self.fakepass = Sequential([map, gen, enc, disc]). -/
def fakepass {O : Type} (rt : Runtime O) (p : Params) (z : Batch) : Batch :=
  rt.discF p.discP (rt.encF p.encP (rt.genF p.genP (rt.mapF p.mapP z)))

/-- Composite pipeline self.realpass = Sequential([enc, disc]). -/
def realpass {O : Type} (rt : Runtime O) (p : Params) (x : Batch) : Batch :=
  rt.discF p.discP (rt.encF p.encP x)

/-- Composite pipeline self.latentpass = Sequential([gen, enc]). -/
def latentpass {O : Type} (rt : Runtime O) (p : Params) (w : Batch) : Batch :=
  rt.encF p.encP (rt.genF p.genP w)

/-- Translation of ALAE._disc_loss: mean softplus of the fake-pass scores,
plus mean softplus of the negated real-pass scores, plus the gradient
regularizer gamma / 2 * reduce_mean([reduce_mean(square(g)) for g in grad])
where grad is the tape gradient of the real-pass term over ed_var. -/
def _disc_loss {O : Type} (rt : Runtime O) (cfg : Config) (z x : Batch)
    (p : Params) : ℚ :=
  let fakeloss := meanAll ((fakepass rt p z).map (List.map rt.softplus))
  let realloss := meanAll ((realpass rt p x).map (List.map fun v => rt.softplus (-v)))
  let grad := rt.gradRealED x p
  let gradreg := cfg.gamma / 2 * mean (grad.map fun g => mean (g.map fun t => t ^ 2))
  fakeloss + realloss + gradreg

/-- Translation of ALAE._gen_loss: reduce_mean(softplus(-fakepass(z))); the
second argument is the unused placeholder of the python signature. -/
def _gen_loss {O : Type} (rt : Runtime O) (z : Batch) (_x : Batch)
    (p : Params) : ℚ :=
  meanAll ((fakepass rt p z).map (List.map fun v => rt.softplus (-v)))

/-- Elementwise difference of two equally shaped batched tensors. -/
def batchSub (a b : Batch) : Batch :=
  List.zipWith (fun r s => List.zipWith (fun u v => u - v) r s) a b

/-- Elementwise square of a batched tensor; translation of tf.square. -/
def batchSquare (b : Batch) : Batch := b.map (List.map fun t => t ^ 2)

/-- Translation of ALAE._latent_loss: latent = map(z), recovered =
latentpass(latent), result = reduce_mean(square(latent - recovered)); the
second argument is the unused placeholder of the python signature. -/
def _latent_loss {O : Type} (rt : Runtime O) (z : Batch) (_x : Batch)
    (p : Params) : ℚ :=
  let latent := rt.mapF p.mapP z
  let recovered := latentpass rt p latent
  meanAll (batchSquare (batchSub latent recovered))

/-- The three optimized variable groups captured in ALAE.prepare. -/
inductive VarGroup
  | ed
  | fg
  | eg

/-- Reading a variable group: ed_var = enc + disc, fg_var = map + gen,
eg_var = enc + gen, each a python list concatenation of the two sub-models'
trainable variables. -/
def groupGet : VarGroup → Params → Tensor
  | .ed, p => p.encP ++ p.discP
  | .fg, p => p.mapP ++ p.genP
  | .eg, p => p.encP ++ p.genP

/-- Writing a variable group back: opt.apply_gradients(zip(grad, var)) stores
a new value into each variable of the group, in the concatenation order of
groupGet, and touches nothing outside the group. -/
def groupSet : VarGroup → Params → Tensor → Params
  | .ed, p, v => { p with encP := v.take p.encP.length
                          discP := (v.drop p.encP.length).take p.discP.length }
  | .fg, p, v => { p with mapP := v.take p.mapP.length
                          genP := (v.drop p.mapP.length).take p.genP.length }
  | .eg, p, v => { p with encP := v.take p.encP.length
                          genP := (v.drop p.encP.length).take p.genP.length }

/-- Translation of tf.clip_by_value(t, -c, c) on one scalar. -/
def clip_by_value (c t : ℚ) : ℚ := min (max t (-c)) c

/-- The conditional clipping performed by ALAE._update: with grad_clip = c the
gradient is clipped elementwise to [-c, c], with grad_clip = None it is left
untouched. -/
def clipGrad : Option ℚ → Tensor → Tensor
  | none, g => g
  | some c, g => g.map (clip_by_value c)

/-- Result of one ALAE._update call: the sampled prior, the loss value, the
updated parameters, the updated optimizer state, and the advanced position in
the global random stream. -/
structure UpdateResult (O : Type) where
  z : Batch
  loss : ℚ
  params : Params
  opt : O
  ctr : ℕ

/-- Translation of ALAE._update: sample a fresh standard-normal prior of shape
[B, z_dim], evaluate the loss, take the tape gradient with respect to the
group's variables, optionally clip it, and let the optimizer apply it to the
group. -/
def _update {O : Type} (rt : Runtime O) (cfg : Config) (x : Batch)
    (lossFn : Batch → Batch → Params → ℚ)
    (gradFn : Batch → Batch → Params → Tensor)
    (grp : VarGroup) (opt : O) (gradClip : Option ℚ)
    (p : Params) (ctr : ℕ) : UpdateResult O :=
  let z := rt.normal ctr x.length cfg.zDim 0 1
  let loss := lossFn z x p
  let grad := gradFn z x p
  let grad2 := clipGrad gradClip grad
  let applied := rt.optApply opt grad2 (groupGet grp p)
  ⟨z, loss, groupSet grp p applied.2, applied.1, ctr + 1⟩

/-- Mutable training state of a prepared ALAE instance: the parameters and the
three per-group optimizer states created in prepare, plus the position in the
process-wide random stream. -/
structure TrainState (O : Type) where
  params : Params
  edOpt : O
  fgOpt : O
  egOpt : O
  ctr : ℕ

/-- Translation of ALAE.trainstep: three _update sub-steps in sequence (disc
loss on ed_var with ed_opt and the configured clip, gen loss on fg_var with
fg_opt, latent loss on eg_var with eg_opt), returning the loss dictionary and
the new state.  The epochs and steps arguments are accepted and ignored, as in
the source. -/
def trainstep {O : Type} (rt : Runtime O) (cfg : Config) (x : Batch)
    (_epochs _steps : ℕ) (s : TrainState O) :
    List (String × ℚ) × TrainState O :=
  let r1 := _update rt cfg x (_disc_loss rt cfg) rt.gradDisc .ed s.edOpt
    cfg.discGclip s.params s.ctr
  let r2 := _update rt cfg x (_gen_loss rt) rt.gradGen .fg s.fgOpt none
    r1.params r1.ctr
  let r3 := _update rt cfg x (_latent_loss rt) rt.gradLatent .eg s.egOpt none
    r2.params r2.ctr
  ([("disc", r1.loss), ("gen", r2.loss), ("latent", r3.loss)],
    ⟨r3.params, r1.opt, r2.opt, r3.opt, r3.ctr⟩)

/-- Translation of ALAE.losses: one shared prior draw, the three losses
evaluated without any update; epochs and steps are accepted and ignored. -/
def losses {O : Type} (rt : Runtime O) (cfg : Config) (x : Batch)
    (_epochs _steps : ℕ) (s : TrainState O) : List (String × ℚ) :=
  let z := rt.normal s.ctr x.length cfg.zDim 0 1
  [("disc", _disc_loss rt cfg z x s.params),
   ("gen", _gen_loss rt z x s.params),
   ("latent", _latent_loss rt z x s.params)]

/-!
Embedding of models/stylealae/generator.py.  Feature maps carry explicit
height, width and channel counts (the implicit leading batch axis of the
source is not materialized).  The keras layers and the helpers imported from
the sibling utils module (AffineTransform, Normalize2D, Repeat2D, Blur) are
external primitives; their learned data transformations are abstract fields
supplied at construction, while their shape contracts (stride-2 or repeat
upsampling doubles the spatial size, SAME-padded stride-1 convolution and the
pointwise stages preserve it, a convolution output has the layer's filter
count as channel count) are carried by the wrappers below.
-/

/-- One trainable tensor-runtime variable (a tf.Variable): an identity plus a
current value.  Plain tensors, such as the result of tf.ones, are not
variables and are represented directly by their data. -/
structure TFVar where
  id : ℕ
  data : List ℚ
deriving DecidableEq

/-- Feature map [H, W, C] with explicit shape. -/
structure FeatureMap where
  h : ℕ
  w : ℕ
  c : ℕ
  data : List ℚ
deriving DecidableEq

/-- The two upsampling policies chosen in Generator.__init__. -/
inductive UpKind
  | rep
  | deconv
deriving DecidableEq

/-- Translation of tf.ones([1, h, w, c]): a constant all-ones tensor.  The
result is a plain tensor, not a tf.Variable, so it carries no TFVar and never
appears in any trainable-variable collection. -/
def tfOnes (h w c : ℕ) : FeatureMap := ⟨h, w, c, List.replicate (h * w * c) 1⟩

/-- Translation of tf.keras.layers.LeakyReLU(0.2) on one scalar. -/
def leakyRelu (v : ℚ) : ℚ := if v < 0 then v / 5 else v

/-- Style modulation of Generator.Block.call: the dense-projected style of
length 2 * out_dim is reshaped to a (bias, scale) pair and applied as
x = bias + x * scale, broadcast over the spatial axes (channel index is the
fastest-varying axis of the flattened data, as in a [H, W, C] layout). -/
def styleMod (od : ℕ) (sp : List ℚ) (x : FeatureMap) : FeatureMap :=
  let bias := sp.take od
  let scale := (sp.drop od).take od
  ⟨x.h, x.w, x.c,
    x.data.mapIdx fun n v => bias.getD (n % od) 0 + v * scale.getD (n % od) 0⟩

/-- One Generator.Block: its configuration (out_dim, preconv, upsample), its
trainable variables, and the abstract data transformations of its external
layer primitives (upsample_conv, blur, the two noise draws, the two
AffineTransform noise scalings, Normalize2D, the two style projections, and
the middle convolution).  Modelled from the spec for the utils module
primitives, which are outside the provided sources. -/
structure GBlock where
  out_dim : ℕ
  preconv : Bool
  upsample : UpKind
  vars : List TFVar
  upConvData : FeatureMap → List ℚ
  blurData : FeatureMap → List ℚ
  noise1 : ℕ → ℕ → List ℚ
  noise2 : ℕ → ℕ → List ℚ
  affine1 : List ℚ → List ℚ
  affine2 : List ℚ → List ℚ
  normData : FeatureMap → List ℚ
  dense1 : List ℚ → List ℚ
  dense2 : List ℚ → List ℚ
  convData : FeatureMap → List ℚ

/-- Translation of Generator.Block.call: optional upsampling convolution and
blur (doubling the spatial size and moving to out_dim channels), then the
first noise injection, leaky-ReLU, normalization and style modulation with s1,
then the stride-1 SAME convolution to out_dim channels, then the second noise
injection, leaky-ReLU, normalization and style modulation with s2. -/
def blockCall (b : GBlock) (x0 : FeatureMap) (s1 s2 : List ℚ) : FeatureMap :=
  let xa : FeatureMap :=
    if b.preconv then
      let xu : FeatureMap := ⟨2 * x0.h, 2 * x0.w, b.out_dim, b.upConvData x0⟩
      ⟨xu.h, xu.w, xu.c, b.blurData xu⟩
    else x0
  let n1 := b.noise1 xa.h xa.w
  let x1 : FeatureMap :=
    ⟨xa.h, xa.w, xa.c, (List.zipWith (· + ·) xa.data (b.affine1 n1)).map leakyRelu⟩
  let x2 : FeatureMap := ⟨x1.h, x1.w, x1.c, b.normData x1⟩
  let x3 := styleMod b.out_dim (b.dense1 s1) x2
  let x4 : FeatureMap := ⟨x3.h, x3.w, b.out_dim, b.convData x3⟩
  let n2 := b.noise2 x4.h x4.w
  let x5 : FeatureMap :=
    ⟨x4.h, x4.w, x4.c, (List.zipWith (· + ·) x4.data (b.affine2 n2)).map leakyRelu⟩
  let x6 : FeatureMap := ⟨x5.h, x5.w, x5.c, b.normData x5⟩
  styleMod b.out_dim (b.dense2 s2) x6

/-- One to-RGB head, tf.keras.layers.Conv2D(out_channels, 1): a 1x1 stride-1
convolution whose output channel count is the generator's out_channels; its
kernel data transformation is abstract, its variables are tracked. -/
structure RGBHead where
  outC : ℕ
  vars : List TFVar
  rgbData : FeatureMap → List ℚ

instance : Inhabited RGBHead := ⟨⟨0, [], fun _ => []⟩⟩

/-- Abstract supply of per-level layer internals used when building the
generator: variables and data transformations for block i and to-RGB head i.
These stand for the randomly initialized keras layer parameters. -/
structure Prim where
  blockVars : ℕ → List TFVar
  rgbVars : ℕ → List TFVar
  upConvData : ℕ → FeatureMap → List ℚ
  blurData : ℕ → FeatureMap → List ℚ
  noise1 : ℕ → ℕ → ℕ → List ℚ
  noise2 : ℕ → ℕ → ℕ → List ℚ
  affine1 : ℕ → List ℚ → List ℚ
  affine2 : ℕ → List ℚ → List ℚ
  normData : ℕ → FeatureMap → List ℚ
  dense1 : ℕ → List ℚ → List ℚ
  dense2 : ℕ → List ℚ → List ℚ
  convData : ℕ → FeatureMap → List ℚ
  rgbData : ℕ → FeatureMap → List ℚ

/-- Translation of Generator.Block.__init__ for block i. -/
def mkBlock (p : Prim) (i od : ℕ) (pre : Bool) (up : UpKind) : GBlock :=
  ⟨od, pre, up, p.blockVars i, p.upConvData i, p.blurData i, p.noise1 i,
    p.noise2 i, p.affine1 i, p.affine2 i, p.normData i, p.dense1 i,
    p.dense2 i, p.convData i⟩

/-- Translation of the construction loop of Generator.__init__: for each of n
remaining levels starting at index i, append a block (preconv exactly when
i > 0, repeat upsampling below resolution 128, deconv at or above) and a
to-RGB head, then halve the channel count and double the resolution. -/
def buildLayers (p : Prim) (mc oc : ℕ) :
    ℕ → ℕ → ℕ → ℕ → List GBlock × List RGBHead
  | 0, _, _, _ => ([], [])
  | n + 1, i, ch, res =>
    let od := min mc ch
    let b := mkBlock p i od (decide (0 < i))
      (if res < 128 then UpKind.rep else UpKind.deconv)
    let hd : RGBHead := ⟨oc, p.rgbVars i, p.rgbData i⟩
    let rest := buildLayers p mc oc n (i + 1) (ch / 2) (res * 2)
    (b :: rest.1, hd :: rest.2)

/-- The Generator model state: constructor arguments, the mutable progressive
level, the constant base feature map, and the grown layers. -/
structure Generator where
  init_channels : ℕ
  max_channels : ℕ
  num_layer : ℕ
  out_channels : ℕ
  level : ℤ
  const : FeatureMap
  blocks : List GBlock
  to_rgb : List RGBHead

/-- Translation of Generator.__init__: level starts at num_layer - 1, the
base map is tf.ones([1, 4, 4, min(max_channels, init_channels *
2 ^ (num_layer - 1))]), and the layer lists are built starting from channel
count init_channels * 2 ^ (num_layer - 1) at resolution 4. -/
def mkGenerator (p : Prim) (ic mc L oc : ℕ) : Generator :=
  let resolution := 4
  let channels := ic * 2 ^ (L - 1)
  let od := min mc channels
  let layers := buildLayers p mc oc L 0 channels resolution
  ⟨ic, mc, L, oc, (L : ℤ) - 1, tfOnes resolution resolution od,
    layers.1, layers.2⟩

/-- Translation of Generator.set_level: stores the argument unconditionally
(the source performs no range check). -/
def set_level (g : Generator) (level : ℤ) : Generator := { g with level := level }

/-- Translation of Generator.level_variables: the current level's to-RGB head
variables, extended in order with the variables of blocks 0..level. -/
def level_variables (g : Generator) : List TFVar :=
  let var := (g.to_rgb.getD g.level.toNat default).vars
  (g.blocks.take ((g.level + 1).toNat)).foldl (fun acc b => acc ++ b.vars) var

/-- Translation of Generator.call: start from the constant base map, apply
blocks 0..level passing the single style vector as both style injections,
then the current level's to-RGB head (a 1x1 convolution preserving the
spatial size and emitting out_channels channels). -/
def genCall (g : Generator) (styles : List ℚ) : FeatureMap :=
  let x := (g.blocks.take ((g.level + 1).toNat)).foldl
    (fun x b => blockCall b x styles styles) g.const
  let hd := g.to_rgb.getD g.level.toNat default
  ⟨x.h, x.w, hd.outC, hd.rgbData x⟩

/-- Collection semantics of tf.keras.Model.trainable_variables on the
Generator: every tf.Variable reachable through the tracked layer lists
(blocks, then to-RGB heads).  The const attribute is a plain tensor produced
by tf.ones, not a tf.Variable, so it contributes nothing. -/
def trainableVariables (g : Generator) : List TFVar :=
  (g.blocks.map GBlock.vars).flatten ++ (g.to_rgb.map RGBHead.vars).flatten

/-- Effect of one optimizer application on the Generator: an optimizer can
rewrite every trainable variable (tf.Variable) but nothing else; plain
tensors such as the tf.ones base map are not assignable training targets. -/
def applyVarUpdate (f : TFVar → TFVar) (g : Generator) : Generator :=
  { g with
    blocks := g.blocks.map fun b => { b with vars := b.vars.map f }
    to_rgb := g.to_rgb.map fun hd => { hd with vars := hd.vars.map f } }

/-!
Concrete fixtures used by witness theorems: a runtime over a trivial
optimizer-state type with simple total functions in every black-box slot.
-/

/-- Concrete runtime instance for witnesses. -/
def rtW : Runtime Unit where
  softplus := fun v => v
  mapF := fun _ b => b
  genF := fun _ b => b
  encF := fun _ b => b
  discF := fun _ b => b
  gradRealED := fun _ _ => [[1]]
  gradDisc := fun _ _ _ => [3, -2]
  gradGen := fun _ _ _ => [0]
  gradLatent := fun _ _ _ => [0]
  optApply := fun o g v => (o, List.zipWith (fun a b => a - b) v g)
  normal := fun _ bsz d _ _ => List.replicate bsz (List.replicate d 1)

/-- Concrete configuration for witnesses, with clipping bound 1. -/
def cfgW : Config := ⟨1, 1, some 1⟩

/-- Concrete parameters for witnesses. -/
def pW : Params := ⟨[2], [3], [4], [5], [9]⟩

/-- Concrete training state for witnesses. -/
def stW : TrainState Unit := ⟨pW, (), (), (), 0⟩

/-- C1: trainstep runs exactly three update sub-steps in order — ed_var with
the discriminator loss and ed_opt, then fg_var with the generator loss and
fg_opt, then eg_var with the latent loss and eg_opt — each sub-step first
drawing its own fresh standard-normal prior of shape [batch, z_dim] from the
global stream (draws ctr, ctr + 1, ctr + 2), and returns the dictionary with
keys disc, gen, latent holding the three loss values. -/
theorem trainstep_three_substeps {O : Type} (rt : Runtime O) (cfg : Config)
    (x : Batch) (e s : ℕ) (st : TrainState O) :
    trainstep rt cfg x e s st =
      (let z1 := rt.normal st.ctr x.length cfg.zDim 0 1
       let p0 := st.params
       let a1 := rt.optApply st.edOpt
         (clipGrad cfg.discGclip (rt.gradDisc z1 x p0)) (groupGet .ed p0)
       let p1 := groupSet .ed p0 a1.2
       let z2 := rt.normal (st.ctr + 1) x.length cfg.zDim 0 1
       let a2 := rt.optApply st.fgOpt (rt.gradGen z2 x p1) (groupGet .fg p1)
       let p2 := groupSet .fg p1 a2.2
       let z3 := rt.normal (st.ctr + 2) x.length cfg.zDim 0 1
       let a3 := rt.optApply st.egOpt (rt.gradLatent z3 x p2) (groupGet .eg p2)
       let p3 := groupSet .eg p2 a3.2
       ([("disc", _disc_loss rt cfg z1 x p0),
         ("gen", _gen_loss rt z2 x p1),
         ("latent", _latent_loss rt z3 x p2)],
        ⟨p3, a1.1, a2.1, a3.1, st.ctr + 3⟩)) := rfl

/-- C2: the discriminator loss equals the mean softplus of the fake-pass
scores, plus the mean softplus of the negated real-pass scores, plus gamma / 2
times the mean, across the encoder-union-discriminator variables, of each
variable's elementwise mean squared gradient of the real-pass loss term. -/
theorem disc_loss_formula {O : Type} (rt : Runtime O) (cfg : Config)
    (z x : Batch) (p : Params) :
    _disc_loss rt cfg z x p =
      mean ((fakepass rt p z).flatten.map rt.softplus)
      + mean ((realpass rt p x).flatten.map fun v => rt.softplus (-v))
      + cfg.gamma / 2 *
          mean ((rt.gradRealED x p).map fun g => mean (g.map fun t => t ^ 2)) := by
  simp only [_disc_loss, meanAll, List.map_flatten]

/-- C9: the epochs and steps arguments of trainstep and losses have no effect
on any computation — two calls differing only in them return identical loss
dictionaries and identical final states. -/
theorem epochs_steps_have_no_effect {O : Type} (rt : Runtime O) (cfg : Config)
    (x : Batch) (e1 s1 e2 s2 : ℕ) (st : TrainState O) :
    trainstep rt cfg x e1 s1 st = trainstep rt cfg x e2 s2 st ∧
    losses rt cfg x e1 s1 st = losses rt cfg x e2 s2 st :=
  ⟨rfl, rfl⟩

/-- C5: each trainstep sub-step writes only its own variable union and its own
optimizer state — the disc sub-step leaves mapper and generator parameters
untouched, the gen sub-step leaves encoder and discriminator parameters
untouched, the latent sub-step leaves mapper and discriminator parameters
untouched, the three optimizer states are each advanced exactly once from
their own previous state, and variables outside all three unions are unchanged
by the whole step. -/
theorem trainstep_frame {O : Type} (rt : Runtime O) (cfg : Config) (x : Batch)
    (e s : ℕ) (st : TrainState O) :
    (let r1 := _update rt cfg x (_disc_loss rt cfg) rt.gradDisc .ed st.edOpt
       cfg.discGclip st.params st.ctr
     let r2 := _update rt cfg x (_gen_loss rt) rt.gradGen .fg st.fgOpt none
       r1.params r1.ctr
     let r3 := _update rt cfg x (_latent_loss rt) rt.gradLatent .eg st.egOpt
       none r2.params r2.ctr
     (r1.params.mapP = st.params.mapP ∧ r1.params.genP = st.params.genP ∧
        r1.params.otherP = st.params.otherP) ∧
     (r2.params.encP = r1.params.encP ∧ r2.params.discP = r1.params.discP ∧
        r2.params.otherP = r1.params.otherP) ∧
     (r3.params.mapP = r2.params.mapP ∧ r3.params.discP = r2.params.discP ∧
        r3.params.otherP = r2.params.otherP) ∧
     (trainstep rt cfg x e s st).2 = ⟨r3.params, r1.opt, r2.opt, r3.opt, r3.ctr⟩) ∧
    (trainstep rt cfg x e s st).2.params.otherP = st.params.otherP :=
  ⟨⟨⟨rfl, rfl, rfl⟩, ⟨rfl, rfl, rfl⟩, ⟨rfl, rfl, rfl⟩, rfl⟩, rfl⟩

/-- C8: with disc_gclip = c > 0 every gradient element the discriminator
sub-step applies to the encoder-union-discriminator variables lies in [-c, c];
with disc_gclip omitted the raw gradient is applied; and trainstep clips only
that first sub-step — the generator and latent sub-steps always apply their
raw gradients. -/
theorem disc_grad_clip_bounds {O : Type} (rt : Runtime O) (cfg : Config)
    (x : Batch) (e s : ℕ) (st : TrainState O) :
    (∀ c, cfg.discGclip = some c → 0 < c →
      ∀ y ∈ clipGrad cfg.discGclip
          (rt.gradDisc (rt.normal st.ctr x.length cfg.zDim 0 1) x st.params),
        -c ≤ y ∧ y ≤ c) ∧
    (cfg.discGclip = none →
      clipGrad cfg.discGclip
          (rt.gradDisc (rt.normal st.ctr x.length cfg.zDim 0 1) x st.params)
        = rt.gradDisc (rt.normal st.ctr x.length cfg.zDim 0 1) x st.params) ∧
    ((trainstep rt cfg x e s st).2.params =
      (let z1 := rt.normal st.ctr x.length cfg.zDim 0 1
       let p0 := st.params
       let p1 := groupSet .ed p0 (rt.optApply st.edOpt
         (clipGrad cfg.discGclip (rt.gradDisc z1 x p0)) (groupGet .ed p0)).2
       let z2 := rt.normal (st.ctr + 1) x.length cfg.zDim 0 1
       let p2 := groupSet .fg p1 (rt.optApply st.fgOpt
         (rt.gradGen z2 x p1) (groupGet .fg p1)).2
       let z3 := rt.normal (st.ctr + 2) x.length cfg.zDim 0 1
       groupSet .eg p2 (rt.optApply st.egOpt
         (rt.gradLatent z3 x p2) (groupGet .eg p2)).2)) := by
  refine ⟨?_, ?_, rfl⟩
  · intro c hc hpos y hy
    rw [hc] at hy
    simp only [clipGrad] at hy
    obtain ⟨t, _, rfl⟩ := List.mem_map.mp hy
    unfold clip_by_value
    constructor
    · exact le_min (le_max_right t (-c)) (by linarith)
    · exact min_le_right _ _
  · intro hn
    rw [hn]
    rfl

/-- Witness for C8 at the concrete fixture: the clipping bound is 1, it is
positive, and the first clipped gradient element (which equals 1) lies in
[-1, 1]. -/
theorem disc_grad_clip_bounds_witness : -1 ≤ (1 : ℚ) ∧ (1 : ℚ) ≤ 1 :=
  (disc_grad_clip_bounds rtW cfgW [[2]] 0 0 stW).1 1 rfl (by norm_num) 1
    (by decide)

/-- Auxiliary: a mean vanishes exactly when the underlying sum vanishes (an
empty list has mean 0 by field division and sum 0). -/
lemma mean_eq_zero_iff (l : List ℚ) : mean l = 0 ↔ l.sum = 0 := by
  unfold mean
  rcases l with _ | ⟨a, t⟩
  · simp
  · have hlen : (((a :: t).length : ℚ)) ≠ 0 := by
      rw [Nat.cast_ne_zero]
      simp
    rw [div_eq_zero_iff]
    constructor
    · rintro (h | h)
      · exact h
      · exact absurd h hlen
    · intro h
      exact Or.inl h

/-- Auxiliary: a row of squared differences has a nonnegative sum. -/
lemma row_sq_sum_nonneg (a b : List ℚ) :
    0 ≤ ((List.zipWith (fun u v => u - v) a b).map fun t => t ^ 2).sum := by
  refine List.sum_nonneg ?_
  intro y hy
  obtain ⟨t, _, rfl⟩ := List.mem_map.mp hy
  positivity

/-- Auxiliary: a row of squared differences sums to zero exactly when the two
rows are equal, given equal lengths. -/
lemma row_sq_sum_eq_zero : ∀ (a b : List ℚ), b.length = a.length →
    ((((List.zipWith (fun u v => u - v) a b).map fun t => t ^ 2).sum = 0) ↔ a = b)
  | [], [], _ => by simp
  | [], _ :: _, h => by simp at h
  | _ :: _, [], h => by simp at h
  | a :: as, b :: bs, h => by
    simp only [List.zipWith_cons_cons, List.map_cons, List.sum_cons]
    rw [add_eq_zero_iff_of_nonneg (by positivity) (row_sq_sum_nonneg as bs)]
    rw [row_sq_sum_eq_zero as bs (by simpa using h)]
    simp only [List.cons.injEq]
    constructor
    · rintro ⟨h1, h2⟩
      exact ⟨sub_eq_zero.mp (sq_eq_zero_iff.mp h1), h2⟩
    · rintro ⟨h1, h2⟩
      refine ⟨?_, h2⟩
      rw [h1]
      simp

/-- Auxiliary: one cons step of the squared-difference batch. -/
lemma batchSqSub_cons (a b : List ℚ) (as bs : Batch) :
    batchSquare (batchSub (a :: as) (b :: bs)) =
      ((List.zipWith (fun u v => u - v) a b).map fun t => t ^ 2)
        :: batchSquare (batchSub as bs) := rfl

/-- Auxiliary: the flattened squared-difference batch has a nonnegative sum. -/
lemma batch_sq_sum_nonneg : ∀ (A B : Batch),
    0 ≤ (batchSquare (batchSub A B)).flatten.sum
  | [], _ => by simp [batchSub, batchSquare]
  | _ :: _, [] => by simp [batchSub, batchSquare]
  | a :: as, b :: bs => by
    rw [batchSqSub_cons, List.flatten_cons, List.sum_append]
    exact add_nonneg (row_sq_sum_nonneg a b) (batch_sq_sum_nonneg as bs)

/-- Auxiliary: the flattened squared-difference batch sums to zero exactly
when the two batches are equal, given equal shapes. -/
lemma batch_sq_sum_eq_zero : ∀ (A B : Batch),
    B.map List.length = A.map List.length →
    (((batchSquare (batchSub A B)).flatten.sum = 0) ↔ A = B)
  | [], [], _ => by simp [batchSub, batchSquare]
  | [], _ :: _, h => by simp at h
  | _ :: _, [], h => by simp at h
  | a :: as, b :: bs, h => by
    obtain ⟨h1, h2⟩ : b.length = a.length ∧ bs.map List.length = as.map List.length := by
      simpa using h
    rw [batchSqSub_cons, List.flatten_cons, List.sum_append]
    rw [add_eq_zero_iff_of_nonneg (row_sq_sum_nonneg a b) (batch_sq_sum_nonneg as bs)]
    rw [row_sq_sum_eq_zero a b h1, batch_sq_sum_eq_zero as bs h2]
    simp

/-- C3: the latent loss is the mean of the squared elementwise differences
between the mapped latent map(z) and its round-trip reconstruction
enc(gen(map(z))), and (for shape-respecting sub-models, whose round trip
returns the latent batch's shape) it vanishes exactly when the mapped latent
equals its round trip. -/
theorem latent_loss_mse_zero_iff {O : Type} (rt : Runtime O) (z x : Batch)
    (p : Params) :
    _latent_loss rt z x p =
      meanAll (batchSquare (batchSub (rt.mapF p.mapP z)
        (latentpass rt p (rt.mapF p.mapP z)))) ∧
    ((latentpass rt p (rt.mapF p.mapP z)).map List.length
        = (rt.mapF p.mapP z).map List.length →
      (_latent_loss rt z x p = 0 ↔
        rt.mapF p.mapP z = latentpass rt p (rt.mapF p.mapP z))) := by
  refine ⟨rfl, fun hshape => ?_⟩
  simp only [_latent_loss, meanAll]
  rw [mean_eq_zero_iff]
  exact batch_sq_sum_eq_zero _ _ hshape

/-- Witness for C3 at the concrete fixture, whose sub-models preserve the
batch: the loss vanishes exactly when the mapped latent round-trips. -/
theorem latent_loss_mse_zero_iff_witness :
    _latent_loss rtW [[1]] [[2]] pW = 0 ↔
      rtW.mapF pW.mapP [[1]] = latentpass rtW pW (rtW.mapF pW.mapP [[1]]) :=
  (latent_loss_mse_zero_iff rtW [[1]] [[2]] pW).2 (by decide)

/-- Auxiliary: a block's output height doubles its input height exactly when
the block has a pre-convolution, as the post-upsample stages preserve shape. -/
lemma blockCall_h (b : GBlock) (x : FeatureMap) (s1 s2 : List ℚ) :
    (blockCall b x s1 s2).h = if b.preconv then 2 * x.h else x.h := by
  by_cases hp : b.preconv <;> simp [blockCall, styleMod, hp]

/-- Auxiliary: a block's output width doubles its input width exactly when the
block has a pre-convolution. -/
lemma blockCall_w (b : GBlock) (x : FeatureMap) (s1 s2 : List ℚ) :
    (blockCall b x s1 s2).w = if b.preconv then 2 * x.w else x.w := by
  by_cases hp : b.preconv <;> simp [blockCall, styleMod, hp]

/-- Auxiliary: a block's output channel count is its out_dim, fixed by the
middle convolution and preserved by the later stages. -/
lemma blockCall_c (b : GBlock) (x : FeatureMap) (s1 s2 : List ℚ) :
    (blockCall b x s1 s2).c = b.out_dim := by
  by_cases hp : b.preconv <;> simp [blockCall, styleMod, hp]

/-- Auxiliary: folding a block list over a feature map multiplies the height
by 2 for every block that upsamples. -/
lemma foldl_blockCall_h (s : List ℚ) : ∀ (bs : List GBlock) (x : FeatureMap),
    (bs.foldl (fun x b => blockCall b x s s) x).h
      = x.h * 2 ^ (bs.countP fun b => b.preconv)
  | [], x => by simp
  | b :: bs, x => by
    rw [List.foldl_cons, foldl_blockCall_h s bs, List.countP_cons, blockCall_h]
    by_cases hp : b.preconv
    · simp only [hp, if_true, pow_add]
      ring
    · simp [hp]

/-- Auxiliary: folding a block list over a feature map multiplies the width
by 2 for every block that upsamples. -/
lemma foldl_blockCall_w (s : List ℚ) : ∀ (bs : List GBlock) (x : FeatureMap),
    (bs.foldl (fun x b => blockCall b x s s) x).w
      = x.w * 2 ^ (bs.countP fun b => b.preconv)
  | [], x => by simp
  | b :: bs, x => by
    rw [List.foldl_cons, foldl_blockCall_w s bs, List.countP_cons, blockCall_w]
    by_cases hp : b.preconv
    · simp only [hp, if_true, pow_add]
      ring
    · simp [hp]

/-- Auxiliary: the construction loop produces one block per remaining level. -/
lemma buildLayers_fst_length (p : Prim) (mc oc : ℕ) :
    ∀ n i ch res, ((buildLayers p mc oc n i ch res).1).length = n
  | 0, _, _, _ => rfl
  | n + 1, i, ch, res => by
    simp [buildLayers, buildLayers_fst_length p mc oc n]

/-- Auxiliary: every block built at index 1 or later has a pre-convolution. -/
lemma buildLayers_preconv_true (p : Prim) (mc oc : ℕ) :
    ∀ n i ch res, 1 ≤ i →
      ∀ b ∈ (buildLayers p mc oc n i ch res).1, b.preconv = true
  | 0, _, _, _, _, b, hb => absurd hb (by simp [buildLayers])
  | n + 1, i, ch, res, hi, b, hb => by
    simp only [buildLayers, List.mem_cons] at hb
    rcases hb with hb | hb
    · subst hb
      simp only [mkBlock]
      exact decide_eq_true (by omega)
    · exact buildLayers_preconv_true p mc oc n (i + 1) (ch / 2) (res * 2)
        (by omega) b hb

/-- Auxiliary: every to-RGB head accessed in range carries the generator's
out_channels as its filter count. -/
lemma buildLayers_getD_outC (p : Prim) (mc oc : ℕ) :
    ∀ n i ch res j, j < n →
      (((buildLayers p mc oc n i ch res).2).getD j default).outC = oc
  | 0, _, _, _, j, h => absurd h (Nat.not_lt_zero j)
  | n + 1, i, ch, res, 0, _ => rfl
  | n + 1, i, ch, res, j + 1, h => by
    have := buildLayers_getD_outC p mc oc n (i + 1) (ch / 2) (res * 2) j
      (by omega)
    simpa [buildLayers] using this

/-- Auxiliary: the number of upsampling blocks among the first k + 1 blocks of
a generator grown to at least k + 1 levels is exactly k (the first block keeps
the 4x4 resolution, every later one doubles it). -/
lemma mkGenerator_countP_take (p : Prim) (ic mc L oc k : ℕ) (hk : k < L) :
    (((mkGenerator p ic mc L oc).blocks.take (k + 1)).countP
      fun b => b.preconv) = k := by
  obtain ⟨m, rfl⟩ : ∃ m, L = m + 1 := ⟨L - 1, by omega⟩
  have hblocks : (mkGenerator p ic mc (m + 1) oc).blocks
      = mkBlock p 0 (min mc (ic * 2 ^ m)) (decide (0 < 0))
          (if 4 < 128 then UpKind.rep else UpKind.deconv)
        :: (buildLayers p mc oc m 1 ((ic * 2 ^ m) / 2) 8).1 := rfl
  rw [hblocks, List.take_succ_cons, List.countP_cons]
  have hhead : (mkBlock p 0 (min mc (ic * 2 ^ m)) (decide (0 < 0))
      (if 4 < 128 then UpKind.rep else UpKind.deconv)).preconv = false := rfl
  rw [hhead]
  simp only [if_false, Bool.false_eq_true, add_zero]
  have hall : ∀ b ∈ ((buildLayers p mc oc m 1 ((ic * 2 ^ m) / 2) 8).1).take k,
      b.preconv = true := fun b hb =>
    buildLayers_preconv_true p mc oc m 1 ((ic * 2 ^ m) / 2) 8 (le_refl 1) b
      (List.take_subset k _ hb)
  rw [List.countP_eq_length.mpr hall, List.length_take,
    buildLayers_fst_length p mc oc m 1 ((ic * 2 ^ m) / 2) 8]
  omega

/-- Concrete layer-internals supply for generator witnesses: one variable per
block and per head, trivial data transforms. -/
def primW : Prim where
  blockVars := fun i => [⟨i, [5]⟩]
  rgbVars := fun i => [⟨100 + i, [7]⟩]
  upConvData := fun _ _ => []
  blurData := fun _ _ => []
  noise1 := fun _ _ _ => []
  noise2 := fun _ _ _ => []
  affine1 := fun _ n => n
  affine2 := fun _ n => n
  normData := fun _ x => x.data
  dense1 := fun _ s => s
  dense2 := fun _ s => s
  convData := fun _ x => x.data
  rgbData := fun _ x => x.data

/-- C4: with active level k in [0, num_layer), call feeds the single style
vector as both style injections into each of blocks 0..k, starting from the
constant 4x4 base map and ending with the to-RGB head at level k, and the
output is 2 ^ (k + 2) pixels high and wide with out_channels channels. -/
theorem generator_call_shape (p : Prim) (ic mc L oc k : ℕ) (styles : List ℚ)
    (hk : k < L) :
    (genCall (set_level (mkGenerator p ic mc L oc) (k : ℤ)) styles =
      (let g := set_level (mkGenerator p ic mc L oc) (k : ℤ)
       let xf := (g.blocks.take ((g.level + 1).toNat)).foldl
         (fun x b => blockCall b x styles styles) g.const
       let hd := g.to_rgb.getD g.level.toNat default
       ⟨xf.h, xf.w, hd.outC, hd.rgbData xf⟩)) ∧
    (genCall (set_level (mkGenerator p ic mc L oc) (k : ℤ)) styles).h
      = 2 ^ (k + 2) ∧
    (genCall (set_level (mkGenerator p ic mc L oc) (k : ℤ)) styles).w
      = 2 ^ (k + 2) ∧
    (genCall (set_level (mkGenerator p ic mc L oc) (k : ℤ)) styles).c = oc := by
  have htn : ((k : ℤ) + 1).toNat = k + 1 := by omega
  have htk : ((k : ℤ)).toNat = k := by omega
  refine ⟨rfl, ?_, ?_, ?_⟩
  · have e1 : (genCall (set_level (mkGenerator p ic mc L oc) (k : ℤ)) styles).h
        = (((mkGenerator p ic mc L oc).blocks.take (((k : ℤ) + 1).toNat)).foldl
            (fun x b => blockCall b x styles styles)
            (mkGenerator p ic mc L oc).const).h := rfl
    rw [e1, htn, foldl_blockCall_h, mkGenerator_countP_take p ic mc L oc k hk]
    have hconst : (mkGenerator p ic mc L oc).const.h = 4 := rfl
    rw [hconst, pow_add]
    ring
  · have e1 : (genCall (set_level (mkGenerator p ic mc L oc) (k : ℤ)) styles).w
        = (((mkGenerator p ic mc L oc).blocks.take (((k : ℤ) + 1).toNat)).foldl
            (fun x b => blockCall b x styles styles)
            (mkGenerator p ic mc L oc).const).w := rfl
    rw [e1, htn, foldl_blockCall_w, mkGenerator_countP_take p ic mc L oc k hk]
    have hconst : (mkGenerator p ic mc L oc).const.w = 4 := rfl
    rw [hconst, pow_add]
    ring
  · have e1 : (genCall (set_level (mkGenerator p ic mc L oc) (k : ℤ)) styles).c
        = (((mkGenerator p ic mc L oc).to_rgb).getD ((k : ℤ)).toNat
            default).outC := rfl
    rw [e1, htk]
    exact buildLayers_getD_outC p mc oc L 0 (ic * 2 ^ (L - 1)) 4 k hk

/-- Witness for C4 at a concrete generator: two levels, active level 1,
output height 2 ^ 3. -/
theorem generator_call_shape_witness :
    (genCall (set_level (mkGenerator primW 1 1 2 3) ((1 : ℕ) : ℤ)) []).h
      = 2 ^ (1 + 2) :=
  (generator_call_shape primW 1 1 2 3 1 [] (by norm_num)).2.1

/-- C10: a freshly constructed Generator has level num_layer - 1, so call runs
every block (the take covers the whole block list) and yields spatial size
2 ^ (num_layer + 1), and level_variables is the last to-RGB head's variables
extended with those of every block. -/
theorem fresh_generator_runs_all_blocks (p : Prim) (ic mc L oc : ℕ)
    (styles : List ℚ) (hL : 1 ≤ L) :
    (mkGenerator p ic mc L oc).level = (L : ℤ) - 1 ∧
    (mkGenerator p ic mc L oc).blocks.take
        (((mkGenerator p ic mc L oc).level + 1).toNat)
      = (mkGenerator p ic mc L oc).blocks ∧
    (genCall (mkGenerator p ic mc L oc) styles).h = 2 ^ (L + 1) ∧
    (genCall (mkGenerator p ic mc L oc) styles).w = 2 ^ (L + 1) ∧
    level_variables (mkGenerator p ic mc L oc)
      = (mkGenerator p ic mc L oc).blocks.foldl (fun acc b => acc ++ b.vars)
          (((mkGenerator p ic mc L oc).to_rgb.getD (L - 1) default).vars) := by
  obtain ⟨m, rfl⟩ : ∃ m, L = m + 1 := ⟨L - 1, by omega⟩
  have hlen : (mkGenerator p ic mc (m + 1) oc).blocks.length = m + 1 :=
    buildLayers_fst_length p mc oc (m + 1) 0 (ic * 2 ^ (m + 1 - 1)) 4
  have htn : ((((m + 1 : ℕ) : ℤ) - 1) + 1).toNat = m + 1 := by omega
  have htk : (((m + 1 : ℕ) : ℤ) - 1).toNat = m := by omega
  have hcount : ((mkGenerator p ic mc (m + 1) oc).blocks).countP
      (fun b => b.preconv) = m := by
    have hc := mkGenerator_countP_take p ic mc (m + 1) oc m (by omega)
    rwa [List.take_of_length_le (le_of_eq hlen)] at hc
  have htake : (mkGenerator p ic mc (m + 1) oc).blocks.take
        ((((m + 1 : ℕ) : ℤ) - 1 + 1).toNat)
      = (mkGenerator p ic mc (m + 1) oc).blocks := by
    rw [htn]
    exact List.take_of_length_le (le_of_eq hlen)
  refine ⟨rfl, htake, ?_, ?_, ?_⟩
  · have e1 : (genCall (mkGenerator p ic mc (m + 1) oc) styles).h
        = (((mkGenerator p ic mc (m + 1) oc).blocks.take
              ((((m + 1 : ℕ) : ℤ) - 1 + 1).toNat)).foldl
            (fun x b => blockCall b x styles styles)
            (mkGenerator p ic mc (m + 1) oc).const).h := rfl
    rw [e1, htake, foldl_blockCall_h, hcount]
    have hconst : (mkGenerator p ic mc (m + 1) oc).const.h = 4 := rfl
    rw [hconst, pow_add]
    ring
  · have e1 : (genCall (mkGenerator p ic mc (m + 1) oc) styles).w
        = (((mkGenerator p ic mc (m + 1) oc).blocks.take
              ((((m + 1 : ℕ) : ℤ) - 1 + 1).toNat)).foldl
            (fun x b => blockCall b x styles styles)
            (mkGenerator p ic mc (m + 1) oc).const).w := rfl
    rw [e1, htake, foldl_blockCall_w, hcount]
    have hconst : (mkGenerator p ic mc (m + 1) oc).const.w = 4 := rfl
    rw [hconst, pow_add]
    ring
  · have e1 : level_variables (mkGenerator p ic mc (m + 1) oc)
        = ((mkGenerator p ic mc (m + 1) oc).blocks.take
              ((((m + 1 : ℕ) : ℤ) - 1 + 1).toNat)).foldl
            (fun acc b => acc ++ b.vars)
            (((mkGenerator p ic mc (m + 1) oc).to_rgb.getD
              ((((m + 1 : ℕ) : ℤ) - 1)).toNat default).vars) := rfl
    rw [e1, htake, htk]
    norm_num

/-- Witness for C10 at a concrete two-level generator: the fresh level is
2 - 1 and the call output height is 2 ^ 3. -/
theorem fresh_generator_runs_all_blocks_witness :
    (genCall (mkGenerator primW 1 1 2 3) []).h = 2 ^ (2 + 1) :=
  (fresh_generator_runs_all_blocks primW 1 1 2 3 [] (by norm_num)).2.2.1

/-- Auxiliary: folding set_level over any call list leaves every field except
the level untouched. -/
lemma foldl_set_level_fields : ∀ (calls : List ℤ) (g : Generator),
    (calls.foldl set_level g).blocks = g.blocks ∧
    (calls.foldl set_level g).to_rgb = g.to_rgb ∧
    (calls.foldl set_level g).const = g.const ∧
    (calls.foldl set_level g).num_layer = g.num_layer
  | [], _ => ⟨rfl, rfl, rfl, rfl⟩
  | v :: vs, g => by
    rw [List.foldl_cons]
    exact foldl_set_level_fields vs (set_level g v)

/-- Auxiliary: folding set_level over in-range calls keeps the level in
range. -/
lemma foldl_set_level_range : ∀ (calls : List ℤ) (g : Generator) (N : ℤ),
    0 ≤ g.level ∧ g.level < N → (∀ v ∈ calls, 0 ≤ v ∧ v < N) →
    0 ≤ (calls.foldl set_level g).level ∧ (calls.foldl set_level g).level < N
  | [], _, _, hg, _ => hg
  | v :: vs, g, N, _, hc => by
    rw [List.foldl_cons]
    exact foldl_set_level_range vs (set_level g v) N (hc v (.head _))
      (fun w hw => hc w (.tail _ hw))

/-- C6 counterexample: set_level stores its argument without any range check,
so one out-of-range call already breaks the claimed invariant — on a two-level
generator, set_level 5 leaves the active level at 5, which is not below
num_layer. -/
theorem set_level_no_range_check :
    (set_level (mkGenerator primW 1 1 2 3) 5).level = 5 ∧
    (set_level (mkGenerator primW 1 1 2 3) 5).num_layer = 2 ∧
    ¬((set_level (mkGenerator primW 1 1 2 3) 5).level <
        ((set_level (mkGenerator primW 1 1 2 3) 5).num_layer : ℤ)) :=
  ⟨rfl, rfl, by decide⟩

/-- C6 amended: for a generator with at least one layer, the initial level
num_layer - 1 is in [0, num_layer), any sequence of set_level calls whose
arguments lie in [0, num_layer) keeps the level in that range, such calls
never discard blocks, heads or the base map, and set_level rewrites the level
field alone. -/
theorem level_invariant_ranged_calls (p : Prim) (ic mc L oc : ℕ)
    (calls : List ℤ) (hL : 1 ≤ L)
    (hc : ∀ v ∈ calls, 0 ≤ v ∧ v < (L : ℤ)) :
    (0 ≤ (mkGenerator p ic mc L oc).level ∧
      (mkGenerator p ic mc L oc).level < (L : ℤ)) ∧
    (0 ≤ (calls.foldl set_level (mkGenerator p ic mc L oc)).level ∧
      (calls.foldl set_level (mkGenerator p ic mc L oc)).level < (L : ℤ)) ∧
    (calls.foldl set_level (mkGenerator p ic mc L oc)).blocks
      = (mkGenerator p ic mc L oc).blocks ∧
    (calls.foldl set_level (mkGenerator p ic mc L oc)).to_rgb
      = (mkGenerator p ic mc L oc).to_rgb ∧
    (calls.foldl set_level (mkGenerator p ic mc L oc)).const
      = (mkGenerator p ic mc L oc).const ∧
    (∀ (g : Generator) (l : ℤ), (set_level g l).level = l ∧
      (set_level g l).blocks = g.blocks ∧ (set_level g l).to_rgb = g.to_rgb ∧
      (set_level g l).const = g.const ∧
      (set_level g l).num_layer = g.num_layer) := by
  have hinit : 0 ≤ (mkGenerator p ic mc L oc).level ∧
      (mkGenerator p ic mc L oc).level < (L : ℤ) := by
    constructor
    · show (0 : ℤ) ≤ (L : ℤ) - 1
      omega
    · show (L : ℤ) - 1 < (L : ℤ)
      omega
  obtain ⟨hb, ht, hcst, _⟩ :=
    foldl_set_level_fields calls (mkGenerator p ic mc L oc)
  exact ⟨hinit,
    foldl_set_level_range calls (mkGenerator p ic mc L oc) (L : ℤ) hinit hc,
    hb, ht, hcst, fun g l => ⟨rfl, rfl, rfl, rfl, rfl⟩⟩

/-- Witness for C6 amended: after the in-range calls 0 then 1 on a two-level
generator the level is in [0, 2). -/
theorem level_invariant_ranged_calls_witness :
    0 ≤ (([0, 1] : List ℤ).foldl set_level (mkGenerator primW 1 1 2 3)).level ∧
    (([0, 1] : List ℤ).foldl set_level (mkGenerator primW 1 1 2 3)).level
      < ((2 : ℕ) : ℤ) :=
  (level_invariant_ranged_calls primW 1 1 2 3 [0, 1] (by norm_num)
    (by decide)).2.1

/-- Training update changing the value of every trainable variable, used to
exhibit that the base map stays fixed. -/
def bumpVar : TFVar → TFVar := fun v => ⟨v.id, v.data.map fun _ => 0⟩

/-- C7 counterexample: the 4x4 base map is created by tf.ones as a plain
constant tensor, not a tf.Variable — on a concrete generator its data appears
nowhere among the trainable variables, and a training update that rewrites
every trainable variable leaves it unchanged: it cannot change under
training. -/
theorem const_not_trainable :
    ((trainableVariables (mkGenerator primW 1 1 1 1)).filter
        (fun v => v.data = (mkGenerator primW 1 1 1 1).const.data)) = [] ∧
    (applyVarUpdate bumpVar (mkGenerator primW 1 1 1 1)).const
      = (mkGenerator primW 1 1 1 1).const ∧
    trainableVariables (applyVarUpdate bumpVar (mkGenerator primW 1 1 1 1))
      = (trainableVariables (mkGenerator primW 1 1 1 1)).map bumpVar := by
  refine ⟨by decide, rfl, by decide⟩

/-- C7 amended: the base map is the fixed all-ones constant tensor of shape
4 x 4 with min(max_channels, init_channels * 2 ^ (num_layer - 1)) channels; it
is not a trainable parameter, and no training update on the trainable
variables can change it. -/
theorem const_is_fixed_ones (p : Prim) (ic mc L oc : ℕ) (f : TFVar → TFVar) :
    (mkGenerator p ic mc L oc).const = tfOnes 4 4 (min mc (ic * 2 ^ (L - 1))) ∧
    (applyVarUpdate f (mkGenerator p ic mc L oc)).const
      = (mkGenerator p ic mc L oc).const :=
  ⟨rfl, rfl⟩

end TfAlae

